import Mathlib

/-!
# Verification of the cytogis GeoJSON conversion pipeline

A shallow embedding of `src/cytogis/gismanager.py` (class `GISManager`),
which converts Cytoscape graph exports plus a coordinate table into GeoJSON
`Point` and `LineString` features.  Pure in-memory transformation logic is
embedded; file I/O and the pandas/json parsing layers are represented by
their already-parsed results (lists of records and table rows).

Numeric values are modelled as rationals `ℚ`: the pipeline only parses
decimal strings and passes them through, performing no arithmetic, so exact
rationals represent every value the code manipulates.
-/

deriving instance DecidableEq for Except

namespace Cytogis

/-- A Python scalar value as it occurs in the parsed `.cyjs` JSON records:
a string, a number, `None`, or a boolean. -/
inductive Val where
  | vStr (s : String)
  | vNum (q : ℚ)
  | vNull
  | vBool (b : Bool)
deriving DecidableEq, Repr

/-- The Python exceptions the embedded code can raise: `KeyError` from
subscripting a dict with a missing key, `ValueError` from `float()` on an
unparsable string, `AttributeError` from calling `.lstrip` on a non-string. -/
inductive PyErr where
  | keyError (k : String)
  | valueError (s : String)
  | attrError (s : String)
deriving DecidableEq, Repr

/-- Python truthiness of a value (`if x:`): empty string, zero, `None` and
`False` are falsy. -/
def Val.truthy : Val → Bool
  | .vStr s => s ≠ ""
  | .vNum q => q ≠ 0
  | .vNull => false
  | .vBool b => b

/-- Python `x != lit` for a value `x` and a string literal `lit`: values of
non-string type are always `!=` a string. -/
def Val.neStr : Val → String → Bool
  | .vStr s, t => s ≠ t
  | _, _ => true

/-- A Python dict with string keys, as insertion-ordered key/value pairs
(keys unique, as in a parsed JSON object). -/
abbrev Dict := List (String × Val)

/-- `d.get(k)`: `None`-free lookup returning `none` when the key is absent. -/
def dictGet (d : Dict) (k : String) : Option Val :=
  (d.find? (fun p => p.1 = k)).map (fun p => p.2)

/-- `d[k]`: subscription, raising `KeyError` when the key is absent. -/
def dictItem (d : Dict) (k : String) : Except PyErr Val :=
  match dictGet d k with
  | some v => .ok v
  | none => .error (.keyError k)

/-- Python dict insertion `d[k] = v` on an insertion-ordered pair list:
an existing key keeps its position and gets the new value, a new key is
appended at the end. -/
def dictSet (d : Dict) (k : String) (v : Val) : Dict :=
  match d with
  | [] => [(k, v)]
  | (k', v') :: rest =>
      if k' = k then (k', v) :: rest else (k', v') :: dictSet rest k v

/-- `str.lstrip("0")`: drop leading `'0'` characters. -/
def lstripZeros (s : String) : String :=
  ⟨s.data.dropWhile (fun c => c = '0')⟩

/-- A string is made of `'0'` characters only. -/
def allZeros (s : String) : Bool :=
  s ≠ "" && s.data.all (fun c => c = '0')

/-- Numeric value of a digit character. -/
def digVal (c : Char) : ℕ := c.toNat - 48

/-- Numeric value of a digit string read left to right. -/
def digitsVal (l : List Char) : ℕ :=
  l.foldl (fun a c => 10 * a + digVal c) 0

/-- Parse the optional exponent suffix of a float literal (`e`/`E`, optional
sign, at least one digit, nothing after), as Python `float()` does. -/
def parseExp : List Char → Option ℤ
  | [] => some 0
  | c :: r =>
      if c = 'e' ∨ c = 'E' then
        let (sgn, r2) : ℤ × List Char :=
          match r with
          | '+' :: t => (1, t)
          | '-' :: t => (-1, t)
          | t => (1, t)
        let (ds, r3) := r2.span Char.isDigit
        if ds = [] ∨ r3 ≠ [] then none else some (sgn * (digitsVal ds : ℤ))
      else none

/-- Python `float(s)` on decimal literals: optional sign, digits with an
optional decimal point (at least one digit in the mantissa), optional
exponent.  `inf`/`nan`, underscores and surrounding whitespace — none of
which the pipeline's data contains — are not modelled and fail here.
Returns `none` where `float()` raises `ValueError`. -/
def pyFloat (s : String) : Option ℚ :=
  let (sgnNeg, l1) : Bool × List Char :=
    match s.data with
    | '+' :: t => (false, t)
    | '-' :: t => (true, t)
    | t => (false, t)
  let (ip, l2) := l1.span Char.isDigit
  let (fp, l3) :=
    match l2 with
    | '.' :: t => t.span Char.isDigit
    | t => ([], t)
  if ip = [] ∧ fp = [] then none
  else
    match parseExp l3 with
    | none => none
    | some e =>
        let mag : ℤ := (digitsVal (ip ++ fp) : ℤ) * (10 : ℤ) ^ e.toNat
        some (mkRat (if sgnNeg then -mag else mag) ((10 : ℕ) ^ (fp.length + (-e).toNat)))

/-- `float(s)` as an `Except`, raising `ValueError` on failure. -/
def pyFloatE (s : String) : Except PyErr ℚ :=
  match pyFloat s with
  | some q => .ok q
  | none => .error (.valueError s)

/-- `v.lstrip(...)`: only strings have `.lstrip`; any other value raises
`AttributeError`. -/
def Val.asStr : Val → Except PyErr String
  | .vStr s => .ok s
  | _ => .error (.attrError "lstrip")

/-- The configuration dictionary handed to `GISManager`, restricted to the
keys the embedded logic reads.  `Option` captures key absence
(`config.get(...)` returning `None`, or the `"cols_to_drop" in config`
presence test).  Paths and output locations belong to the I/O layer and are
omitted. -/
structure Config where
  lat_long_cols : String × String
  cols_to_drop : Option (List String)
  processed : Option Bool
  node_props_drop : Option (List String)
deriving DecidableEq, Repr

/-- Truthiness of `self.config.get("processed")`: absent means falsy. -/
def Config.processedFlag (c : Config) : Bool := c.processed.getD false

/-- Truthiness of `self.config.get("node_props_drop")`: only a present,
non-empty list is truthy. -/
def Config.nodeDropActive (c : Config) : Bool :=
  match c.node_props_drop with
  | some (_ :: _) => true
  | _ => false

/-- A Cytoscape node record: the `"data"` object of one entry of
`elements.nodes`. -/
structure NodeRec where
  data : Dict
deriving DecidableEq, Repr

/-- A Cytoscape edge record: the `"data"` object of one entry of
`elements.edges`. -/
structure EdgeRec where
  data : Dict
deriving DecidableEq, Repr

/-- One row of the coordinate CSV as parsed by `pd.read_csv`: named cells,
`none` standing for a missing value (`NaN`).  Cell contents are kept as
strings, the form the pipeline's comparisons and `float()` conversions
consume. -/
structure Row where
  cells : List (String × Option String)
deriving DecidableEq, Repr

/-- Look a cell up by column name; `none` when the row has no such column. -/
def Row.cell (r : Row) (c : String) : Option (Option String) :=
  (r.cells.find? (fun p => p.1 = c)).map (fun p => p.2)

/-- `row[c]` as a string, for `_dataframe_to_dict`: a missing column raises
`KeyError`.  A `NaN` cell is treated as an error here; in the pipeline the
frame has already been `dropna`-filtered, so no `NaN` cell reaches this
function. -/
def Row.strCell (r : Row) (c : String) : Except PyErr String :=
  match r.cell c with
  | some (some s) => .ok s
  | some none => .error (.valueError "NaN")
  | none => .error (.keyError c)

/-- `df.drop(cols, axis=1)`: remove the named columns from a row.  (pandas
raises if a listed column is absent; the embedding removes what is present,
which agrees with pandas on every frame that has the listed columns.) -/
def dropColumns (cols : List String) (r : Row) : Row :=
  ⟨r.cells.filter (fun p => !cols.contains p.1)⟩

/-- `df.dropna(axis=0)` keeps a row iff no cell is missing. -/
def Row.complete (r : Row) : Bool :=
  r.cells.all (fun p => p.2.isSome)

/-- The elementwise `df[col] != "undefined"` test on one row: true for any
non-matching or non-string cell (pandas compares `NaN != "undefined"` as
true; after `dropna` no `NaN` remains). -/
def Row.cellNe (r : Row) (c v : String) : Bool :=
  match r.cell c with
  | some (some s) => s ≠ v
  | _ => true

/-- `GISManager._map_locations`, after `pd.read_csv`: drop the configured
columns when `"cols_to_drop"` is a key of the config, drop rows containing
a missing value, then keep only rows whose two coordinate columns (named by
`lat_long_cols`) differ from the literal string `"undefined"`. -/
def map_locations (cfg : Config) (table : List Row) : List Row :=
  let dropped :=
    match cfg.cols_to_drop with
    | some cols => table.map (dropColumns cols)
    | none => table
  let nonNull := dropped.filter Row.complete
  nonNull.filter (fun r =>
    r.cellNe cfg.lat_long_cols.1 "undefined" && r.cellNe cfg.lat_long_cols.2 "undefined")

/-- `GISManager._get_location_set`: the set of values of the `"Ort"` column,
as a deduplicated list (only membership is ever used). -/
def get_location_set (df : List Row) : List String :=
  (df.filterMap (fun r => (r.cell "Ort").join)).dedup

/-- Python dict insertion for the places dict of `_dataframe_to_dict`
(string keys, coordinate-pair values): existing key keeps its position and
takes the new value, new key appended. -/
def placesSet (d : List (String × ℚ × ℚ)) (k : String) (v : ℚ × ℚ) :
    List (String × ℚ × ℚ) :=
  match d with
  | [] => [(k, v)]
  | (k', v') :: rest =>
      if k' = k then (k', v) :: rest else (k', v') :: placesSet rest k v

/-- `places_dict[k]` lookup: subscripting the places dict with a value; the
dict's keys are the strings of the `"Ort"` column, so a non-string key is
never found. -/
def placesFind (m : List (String × ℚ × ℚ)) (v : Val) : Except PyErr (ℚ × ℚ) :=
  match v with
  | .vStr k =>
      match (m.find? (fun p => p.1 = k)).map (fun p => p.2) with
      | some c => .ok c
      | none => .error (.keyError k)
  | _ => .error (.keyError "unhashable-or-missing")

/-- Loop of `GISManager._dataframe_to_dict` over the rows, threading the
dict being built: `places_dict[row["Ort"]] = [float(row["Len"]), float(row["Lat"])]`. -/
def dataframeGo (acc : List (String × ℚ × ℚ)) :
    List Row → Except PyErr (List (String × ℚ × ℚ))
  | [] => .ok acc
  | r :: rest => do
      let place ← r.strCell "Ort"
      let lat ← r.strCell "Lat"
      let lon ← r.strCell "Len"
      let lonQ ← pyFloatE lon
      let latQ ← pyFloatE lat
      dataframeGo (placesSet acc place (lonQ, latQ)) rest

/-- `GISManager._dataframe_to_dict`: place name → `[float(lon), float(lat)]`,
with the longitude taken from the hard-coded `"Len"` column and the latitude
from the hard-coded `"Lat"` column; duplicate places resolve last-wins. -/
def dataframe_to_dict (df : List Row) : Except PyErr (List (String × ℚ × ℚ)) :=
  dataframeGo [] df

/-- Modelled from the spec: `cytogis/features.py` (the `Feature` and
`FeatureCollection` classes) is not under `src/`.  Per spec §3, a geometry
payload is a single coordinate pair for `Point` and exactly two coordinate
pairs for `LineString`; each pair is ordered as the code supplies it. -/
inductive Geometry where
  | point (pos : ℚ × ℚ)
  | lineString (src tgt : ℚ × ℚ)
deriving DecidableEq, Repr

/-- Modelled from the spec: a `Feature` is a geometry type tag, a geometry
payload and a properties mapping, immutable once constructed (spec §3); the
`populated_obj` handed to `add_feature` is the feature itself. -/
structure Feature where
  gtype : String
  geometry : Geometry
  properties : Dict
deriving DecidableEq, Repr

/-- Modelled from the spec: a `FeatureCollection` is an ordered,
insertion-preserving sequence of features (spec §3, §4.5). -/
structure FeatureCollection where
  features : List Feature
deriving DecidableEq, Repr

/-- Modelled from the spec: `add_feature` appends, preserving order. -/
def FeatureCollection.add_feature (c : FeatureCollection) (f : Feature) :
    FeatureCollection :=
  ⟨c.features ++ [f]⟩

/-- The lat presence/placeholder test of `create_features_nodes` line 100:
`node["data"].get("lat") and node["data"].get("lat") != "undefined"` —
truthy (present, non-empty) and different from the placeholder string. -/
def nodeQualifies (n : NodeRec) : Bool :=
  match dictGet n.data "lat" with
  | some v => v.truthy && v.neStr "undefined"
  | none => false

/-- Body of the node loop of `GISManager.create_features_nodes` for a single
node (lines 98–120): the lat presence/placeholder test (factored out as
`nodeQualifies`), the leading-zero-stripped float conversions (`lng`
first), the optional property filtering, and the construction of the
`Point` feature whose properties merge `name` and `connections` with the
retained node fields, later keys overwriting earlier ones as in a Python
dict literal. -/
def nodeStep (cfg : Config) (n : NodeRec) : Except PyErr (Option Feature) :=
  if nodeQualifies n then do
    let lat ← dictItem n.data "lat"
    let lng ← dictItem n.data "lng"
    let lngS ← lng.asStr
    let lngQ ← pyFloatE (lstripZeros lngS)
    let latS ← lat.asStr
    let latQ ← pyFloatE (lstripZeros latS)
    let nodeProps : Dict :=
      if cfg.nodeDropActive then
        n.data.filter (fun p => !(cfg.node_props_drop.getD []).contains p.1)
      else []
    let identifier := if cfg.processedFlag then "id_original" else "id"
    let nameVal ← dictItem n.data identifier
    let props := nodeProps.foldl (fun acc p => dictSet acc p.1 p.2)
      [("name", nameVal), ("connections", Val.vNull)]
    .ok (some ⟨"Point", .point (lngQ, latQ), props⟩)
  else
    .ok none

/-- The node loop of `create_features_nodes`: nodes in order, qualifying
nodes contributing one feature each, the first raised exception aborting
the whole call. -/
def featuresNodesGo (cfg : Config) : List NodeRec → Except PyErr (List Feature)
  | [] => .ok []
  | n :: rest => do
      let f? ← nodeStep cfg n
      let fs ← featuresNodesGo cfg rest
      .ok (match f? with | some f => f :: fs | none => fs)

/-- `GISManager.create_features_nodes`: build the `Point` features of all
qualifying nodes into a `FeatureCollection`. -/
def create_features_nodes (cfg : Config) (nodes : List NodeRec) :
    Except PyErr FeatureCollection := do
  let fs ← featuresNodesGo cfg nodes
  .ok (fs.foldl FeatureCollection.add_feature ⟨[]⟩)

/-- Python dict update `all_edges[source].append({target: weight})` /
`all_edges[source] = [{target: weight}]`: append the pair to the list held
at the key when present (key position preserved), otherwise add a new key
at the end. -/
def connInsert (m : List (Val × List (Val × Val))) (s : Val) (tw : Val × Val) :
    List (Val × List (Val × Val)) :=
  match m with
  | [] => [(s, [tw])]
  | (s', ts) :: rest =>
      if s' = s then (s', ts ++ [tw]) :: rest else (s', ts) :: connInsert rest s tw

/-- Loop of `GISManager._get_connections` over the edges.  In processed mode
the endpoints come from `data.get("source_original")` / `data.get("target_original")`
(a missing field yields Python `None`, embedded as `Val.vNull`); otherwise
from the subscriptions `data["source"]` / `data["target"]`.  The weight is
always the subscription `data["weight"]`.  Each `{target: weight}` singleton
dict is represented by the pair itself, since the consumer immediately
unpacks it via `list(target.items())[0]`. -/
def connectionsGo (processed : Bool) (acc : List (Val × List (Val × Val))) :
    List EdgeRec → Except PyErr (List (Val × List (Val × Val)))
  | [] => .ok acc
  | e :: rest => do
      let st ←
        if processed then
          Except.ok ((dictGet e.data "source_original").getD .vNull,
            (dictGet e.data "target_original").getD .vNull)
        else do
          let s ← dictItem e.data "source"
          let t ← dictItem e.data "target"
          Except.ok (s, t)
      let w ← dictItem e.data "weight"
      connectionsGo processed (connInsert acc st.1 (st.2, w)) rest

/-- `GISManager._get_connections`: group the edges into a source-keyed,
insertion-ordered mapping to `(target, weight)` lists. -/
def get_connections (edges : List EdgeRec) (processed : Bool) :
    Except PyErr (List (Val × List (Val × Val))) :=
  connectionsGo processed [] edges

/-- `source in unique_locations` for a source that may be any value: the
location set holds strings only. -/
def valInSet (v : Val) (s : List String) : Bool :=
  match v with
  | .vStr t => s.contains t
  | _ => false

/-- Inner target loop of `_make_line_strings` for a fixed source with
coordinates already looked up: emit one `LineString` per target present in
the location set, skip the rest silently. -/
def emitTargets (uniq : List String) (m : List (String × ℚ × ℚ)) (src : Val)
    (srcC : ℚ × ℚ) : List (Val × Val) → Except PyErr (List Feature)
  | [] => .ok []
  | (t, w) :: rest =>
      if valInSet t uniq then do
        let tgtC ← placesFind m t
        let fs ← emitTargets uniq m src srcC rest
        .ok (⟨"LineString", .lineString srcC tgtC,
          [("source", src), ("target", t), ("weight", w)]⟩ :: fs)
      else
        emitTargets uniq m src srcC rest

/-- Outer loop of `_make_line_strings` over the grouped connections:
sources absent from the location set are skipped with their whole target
list; for a present source its coordinates are looked up once. -/
def emitConns (uniq : List String) (m : List (String × ℚ × ℚ)) :
    List (Val × List (Val × Val)) → Except PyErr (List Feature)
  | [] => .ok []
  | (s, ts) :: rest =>
      if valInSet s uniq then do
        let srcC ← placesFind m s
        let fs1 ← emitTargets uniq m s srcC ts
        let fs2 ← emitConns uniq m rest
        .ok (fs1 ++ fs2)
      else
        emitConns uniq m rest

/-- `GISManager._make_line_strings`: from the filtered coordinate table
(computed in `__init__` via `_map_locations` / `_get_location_set`) and the
edge list, group the edges by source and emit a `LineString` feature for
every `(source, target, weight)` with both endpoints in the location set. -/
def make_line_strings (cfg : Config) (table : List Row) (edges : List EdgeRec) :
    Except PyErr (List Feature) := do
  let coordData := map_locations cfg table
  let uniq := get_location_set coordData
  let m ← dataframe_to_dict coordData
  let conns ← get_connections edges cfg.processedFlag
  emitConns uniq m conns

/-- `GISManager.create_features_edges`: collect the `LineString` features
into a `FeatureCollection`. -/
def create_features_edges (cfg : Config) (table : List Row) (edges : List EdgeRec) :
    Except PyErr FeatureCollection := do
  let fs ← make_line_strings cfg table edges
  .ok (fs.foldl FeatureCollection.add_feature ⟨[]⟩)

/-! ## Derived notions used to state the properties -/

/-- The string content of an optional value, defaulting to `""`. -/
def strOfVal (v : Option Val) : String :=
  match v with
  | some (.vStr s) => s
  | _ => ""

/-- The coordinate a qualifying node contributes for field `k` (`"lat"` or
`"lng"`): `float(value.lstrip("0"))`, as a total function (defaulting where
the real code would raise). -/
def nodeCoord (n : NodeRec) (k : String) : ℚ :=
  (pyFloat (lstripZeros (strOfVal (dictGet n.data k)))).getD 0

/-- The `name` property value of a node feature: the `id` field, or
`id_original` in processed mode. -/
def nodeName (cfg : Config) (n : NodeRec) : Val :=
  (dictGet n.data (if cfg.processedFlag then "id_original" else "id")).getD .vNull

/-- The node fields retained after the optional deny-list filtering. -/
def nodeRetained (cfg : Config) (n : NodeRec) : Dict :=
  if cfg.nodeDropActive then
    n.data.filter (fun p => !(cfg.node_props_drop.getD []).contains p.1)
  else []

/-- The `Point` feature a qualifying node produces, as a total function of
the node and configuration. -/
def specNodeFeature (cfg : Config) (n : NodeRec) : Feature :=
  ⟨"Point", .point (nodeCoord n "lng", nodeCoord n "lat"),
    (nodeRetained cfg n).foldl (fun acc p => dictSet acc p.1 p.2)
      [("name", nodeName cfg n), ("connections", Val.vNull)]⟩

/-- The resolved source of an edge under the mode flag, as a total
function: in processed mode `data.get("source_original")` (absent → `None`),
otherwise the `source` field. -/
def resolveSource (processed : Bool) (e : EdgeRec) : Val :=
  if processed then (dictGet e.data "source_original").getD .vNull
  else (dictGet e.data "source").getD .vNull

/-- The resolved target of an edge under the mode flag. -/
def resolveTarget (processed : Bool) (e : EdgeRec) : Val :=
  if processed then (dictGet e.data "target_original").getD .vNull
  else (dictGet e.data "target").getD .vNull

/-- The weight of an edge, as a total function. -/
def edgeWeight (e : EdgeRec) : Val :=
  (dictGet e.data "weight").getD .vNull

/-- The fields `_get_connections` subscripts on an edge are present, so the
aggregation step cannot raise on this edge: the weight always, and in raw
mode also `source` and `target`. -/
def edgeFieldsOk (processed : Bool) (e : EdgeRec) : Bool :=
  (processed || ((dictGet e.data "source").isSome && (dictGet e.data "target").isSome))
    && (dictGet e.data "weight").isSome

/-- An edge qualifies for emission when both resolved endpoints are members
of the location set. -/
def qualEdge (processed : Bool) (uniq : List String) (e : EdgeRec) : Bool :=
  valInSet (resolveSource processed e) uniq && valInSet (resolveTarget processed e) uniq

/-- Total lookup in the places dict, defaulting where the real code would
raise (only applied to keys known to be present). -/
def placesGetD (m : List (String × ℚ × ℚ)) (v : Val) : ℚ × ℚ :=
  match v with
  | .vStr k => ((m.find? (fun p => p.1 = k)).map (fun p => p.2)).getD (0, 0)
  | _ => (0, 0)

/-- The `LineString` feature one qualified edge produces. -/
def mkEdgeFeature (processed : Bool) (m : List (String × ℚ × ℚ)) (e : EdgeRec) :
    Feature :=
  ⟨"LineString",
    .lineString (placesGetD m (resolveSource processed e))
      (placesGetD m (resolveTarget processed e)),
    [("source", resolveSource processed e), ("target", resolveTarget processed e),
      ("weight", edgeWeight e)]⟩

/-- One step of the connection grouping, in total form. -/
def connStep (processed : Bool) (m : List (Val × List (Val × Val))) (e : EdgeRec) :
    List (Val × List (Val × Val)) :=
  connInsert m (resolveSource processed e) (resolveTarget processed e, edgeWeight e)

/-- The features one grouped source contributes, in total form: nothing
when the source is not in the location set, otherwise one `LineString` per
target in the set. -/
def connBlock (uniq : List String) (m : List (String × ℚ × ℚ)) (s : Val)
    (ts : List (Val × Val)) : List Feature :=
  if valInSet s uniq then
    (ts.filter (fun tw => valInSet tw.1 uniq)).map (fun tw =>
      (⟨"LineString", .lineString (placesGetD m s) (placesGetD m tw.1),
        [("source", s), ("target", tw.1), ("weight", tw.2)]⟩ : Feature))
  else []

/-- The features `emitConns` produces from a grouped connection index, in
total form (lookups defaulted; they are exercised only at present keys). -/
def flattenConns (uniq : List String) (m : List (String × ℚ × ℚ)) :
    List (Val × List (Val × Val)) → List Feature
  | [] => []
  | p :: rest => connBlock uniq m p.1 p.2 ++ flattenConns uniq m rest

/-- The string content of a table cell, defaulting to `""`. -/
def strOfCell (c : Option (Option String)) : String :=
  match c with
  | some (some s) => s
  | _ => ""

/-- The coordinate pair a table row contributes, in total form: longitude
from the `"Len"` column first, latitude from the `"Lat"` column second. -/
def rowLonLat (r : Row) : ℚ × ℚ :=
  ((pyFloat (strOfCell (r.cell "Len"))).getD 0, (pyFloat (strOfCell (r.cell "Lat"))).getD 0)

/-! ## Generic lemmas about the embedding -/

theorem bind_ok_iff {α β : Type} (x : Except PyErr α) (f : α → Except PyErr β) (b : β) :
    (x >>= f = Except.ok b) ↔ ∃ a, x = .ok a ∧ f a = .ok b := by
  cases x <;> simp [Bind.bind, Except.bind]

theorem dictItem_ok_iff (d : Dict) (k : String) (v : Val) :
    dictItem d k = .ok v ↔ dictGet d k = some v := by
  unfold dictItem
  cases h : dictGet d k <;> simp

theorem asStr_ok_iff (v : Val) (s : String) : v.asStr = .ok s ↔ v = .vStr s := by
  cases v <;> simp [Val.asStr]

theorem pyFloatE_ok_iff (s : String) (q : ℚ) : pyFloatE s = .ok q ↔ pyFloat s = some q := by
  unfold pyFloatE
  cases h : pyFloat s <;> simp

theorem foldl_add_feature (fs : List Feature) (acc : List Feature) :
    fs.foldl FeatureCollection.add_feature ⟨acc⟩ = ⟨acc ++ fs⟩ := by
  induction fs generalizing acc with
  | nil => simp
  | cons f fs ih =>
      simp only [List.foldl_cons, FeatureCollection.add_feature]
      rw [ih]
      simp

theorem nodeStep_not_qual (cfg : Config) (n : NodeRec) (h : nodeQualifies n = false) :
    nodeStep cfg n = .ok none := by
  simp [nodeStep, h]

theorem nodeStep_ok_some (cfg : Config) (n : NodeRec) (f : Feature)
    (h : nodeStep cfg n = .ok (some f)) :
    nodeQualifies n = true ∧ f = specNodeFeature cfg n := by
  by_cases hq : nodeQualifies n
  · refine ⟨hq, ?_⟩
    rw [nodeStep, if_pos hq] at h
    rw [bind_ok_iff] at h
    obtain ⟨lat, hlat, h⟩ := h
    rw [bind_ok_iff] at h
    obtain ⟨lng, hlng, h⟩ := h
    rw [bind_ok_iff] at h
    obtain ⟨lngS, hlngS, h⟩ := h
    rw [bind_ok_iff] at h
    obtain ⟨lngQ, hlngQ, h⟩ := h
    rw [bind_ok_iff] at h
    obtain ⟨latS, hlatS, h⟩ := h
    rw [bind_ok_iff] at h
    obtain ⟨latQ, hlatQ, h⟩ := h
    rw [bind_ok_iff] at h
    obtain ⟨nameVal, hname, h⟩ := h
    rw [dictItem_ok_iff] at hlat hlng hname
    rw [asStr_ok_iff] at hlngS hlatS
    rw [pyFloatE_ok_iff] at hlngQ hlatQ
    subst hlngS hlatS
    simp only [Except.ok.injEq, Option.some.injEq] at h
    subst h
    unfold specNodeFeature nodeCoord nodeName nodeRetained strOfVal
    rw [hlng, hlat, hname, hlngQ, hlatQ]
    simp
  · rw [nodeStep_not_qual cfg n (by simpa using hq)] at h
    exact absurd h (by simp)

theorem nodeStep_qual_shape (cfg : Config) (n : NodeRec) (hq : nodeQualifies n = true) :
    (∃ e, nodeStep cfg n = .error e) ∨ nodeStep cfg n = .ok (some (specNodeFeature cfg n)) := by
  cases h : nodeStep cfg n with
  | error e => exact Or.inl ⟨e, rfl⟩
  | ok f? =>
      cases f? with
      | none =>
          rw [nodeStep, if_pos hq] at h
          rw [bind_ok_iff] at h
          obtain ⟨lat, hlat, h⟩ := h
          rw [bind_ok_iff] at h
          obtain ⟨lng, hlng, h⟩ := h
          rw [bind_ok_iff] at h
          obtain ⟨lngS, hlngS, h⟩ := h
          rw [bind_ok_iff] at h
          obtain ⟨lngQ, hlngQ, h⟩ := h
          rw [bind_ok_iff] at h
          obtain ⟨latS, hlatS, h⟩ := h
          rw [bind_ok_iff] at h
          obtain ⟨latQ, hlatQ, h⟩ := h
          rw [bind_ok_iff] at h
          obtain ⟨nameVal, hname, h⟩ := h
          simp at h
      | some f =>
          obtain ⟨-, hf⟩ := nodeStep_ok_some cfg n f h
          exact Or.inr (by rw [hf])

theorem featuresNodesGo_ok (cfg : Config) (nodes : List NodeRec) (fs : List Feature)
    (h : featuresNodesGo cfg nodes = .ok fs) :
    fs = (nodes.filter nodeQualifies).map (specNodeFeature cfg) := by
  induction nodes generalizing fs with
  | nil =>
      simp [featuresNodesGo] at h
      simp [h]
  | cons n rest ih =>
      rw [featuresNodesGo] at h
      rw [bind_ok_iff] at h
      obtain ⟨f?, hf, h⟩ := h
      rw [bind_ok_iff] at h
      obtain ⟨fsr, hfsr, h⟩ := h
      simp only [Except.ok.injEq] at h
      subst h
      cases hq : nodeQualifies n with
      | false =>
          rw [nodeStep_not_qual cfg n hq] at hf
          simp only [Except.ok.injEq] at hf
          subst hf
          simpa [hq] using ih fsr hfsr
      | true =>
          rcases nodeStep_qual_shape cfg n hq with ⟨e, he⟩ | hok
          · rw [he] at hf; exact absurd hf (by simp)
          · rw [hok] at hf
            simp only [Except.ok.injEq] at hf
            subst hf
            simpa [hq] using ih fsr hfsr

theorem featuresNodesGo_ok_mem (cfg : Config) (nodes : List NodeRec) (fs : List Feature)
    (h : featuresNodesGo cfg nodes = .ok fs) :
    ∀ n ∈ nodes, ∃ r, nodeStep cfg n = .ok r := by
  induction nodes generalizing fs with
  | nil => simp
  | cons n rest ih =>
      rw [featuresNodesGo] at h
      rw [bind_ok_iff] at h
      obtain ⟨f?, hf, h⟩ := h
      rw [bind_ok_iff] at h
      obtain ⟨fsr, hfsr, h⟩ := h
      intro x hx
      rcases List.mem_cons.mp hx with rfl | hx
      · exact ⟨f?, hf⟩
      · exact ih fsr hfsr x hx

theorem create_features_nodes_ok (cfg : Config) (nodes : List NodeRec)
    (fc : FeatureCollection) (h : create_features_nodes cfg nodes = .ok fc) :
    fc.features = (nodes.filter nodeQualifies).map (specNodeFeature cfg) := by
  rw [create_features_nodes, bind_ok_iff] at h
  obtain ⟨fs, hfs, h⟩ := h
  simp only [Except.ok.injEq] at h
  subst h
  rw [foldl_add_feature]
  simpa using featuresNodesGo_ok cfg nodes fs hfs

theorem ok_bind {α β : Type} (a : α) (f : α → Except PyErr β) :
    (Except.ok a >>= f) = f a := rfl

theorem connectionsGo_cons (b : Bool) (acc : List (Val × List (Val × Val)))
    (e : EdgeRec) (rest : List EdgeRec) (r : List (Val × List (Val × Val)))
    (h : connectionsGo b acc (e :: rest) = .ok r) :
    ∃ (st : Val × Val) (w : Val), dictItem e.data "weight" = .ok w ∧
      connectionsGo b (connInsert acc st.1 (st.2, w)) rest = .ok r := by
  rw [connectionsGo] at h
  cases b with
  | true =>
      rw [if_pos rfl] at h
      simp only [ok_bind] at h
      rw [bind_ok_iff] at h
      obtain ⟨w, hw, h⟩ := h
      exact ⟨((dictGet e.data "source_original").getD .vNull,
        (dictGet e.data "target_original").getD .vNull), w, hw, h⟩
  | false =>
      rw [if_neg (by simp)] at h
      rw [bind_ok_iff] at h
      obtain ⟨s, hs, h⟩ := h
      rw [bind_ok_iff] at h
      obtain ⟨t, ht, h⟩ := h
      simp only [ok_bind] at h
      rw [bind_ok_iff] at h
      obtain ⟨w, hw, h⟩ := h
      exact ⟨(s, t), w, hw, h⟩

theorem connectionsGo_ok_weight (b : Bool) (acc : List (Val × List (Val × Val)))
    (edges : List EdgeRec) (r : List (Val × List (Val × Val)))
    (h : connectionsGo b acc edges = .ok r) :
    ∀ e ∈ edges, (dictGet e.data "weight").isSome := by
  induction edges generalizing acc with
  | nil => simp
  | cons e rest ih =>
      obtain ⟨st, w, hw, h⟩ := connectionsGo_cons b acc e rest r h
      intro x hx
      rcases List.mem_cons.mp hx with rfl | hx
      · rw [dictItem_ok_iff] at hw
        simp [hw]
      · exact ih (connInsert acc st.1 (st.2, w)) h x hx

theorem connectionsGo_ok_of_fields (b : Bool) (edges : List EdgeRec)
    (acc : List (Val × List (Val × Val)))
    (hf : ∀ e ∈ edges, edgeFieldsOk b e = true) :
    connectionsGo b acc edges = .ok (edges.foldl (connStep b) acc) := by
  induction edges generalizing acc with
  | nil => simp [connectionsGo]
  | cons e rest ih =>
      have he := hf e (by simp)
      rw [edgeFieldsOk, Bool.and_eq_true] at he
      obtain ⟨hst, hw⟩ := he
      rw [Option.isSome_iff_exists] at hw
      obtain ⟨w, hw⟩ := hw
      rw [connectionsGo, List.foldl_cons]
      cases b with
      | true =>
          rw [if_pos rfl]
          simp only [ok_bind]
          rw [show dictItem e.data "weight" = .ok w from (dictItem_ok_iff _ _ _).mpr hw]
          simp only [ok_bind]
          have hc : connStep true acc e =
              connInsert acc ((dictGet e.data "source_original").getD .vNull)
                ((dictGet e.data "target_original").getD .vNull, w) := by
            simp [connStep, resolveSource, resolveTarget, edgeWeight, hw]
          rw [← hc]
          exact ih _ (fun x hx => hf x (List.mem_cons_of_mem _ hx))
      | false =>
          simp only [Bool.false_or, Bool.and_eq_true] at hst
          obtain ⟨hs, ht⟩ := hst
          rw [Option.isSome_iff_exists] at hs ht
          obtain ⟨s, hs⟩ := hs
          obtain ⟨t, ht⟩ := ht
          rw [if_neg (by simp)]
          rw [show dictItem e.data "source" = .ok s from (dictItem_ok_iff _ _ _).mpr hs]
          simp only [ok_bind]
          rw [show dictItem e.data "target" = .ok t from (dictItem_ok_iff _ _ _).mpr ht]
          simp only [ok_bind]
          rw [show dictItem e.data "weight" = .ok w from (dictItem_ok_iff _ _ _).mpr hw]
          simp only [ok_bind]
          have hc : connStep false acc e = connInsert acc s (t, w) := by
            simp [connStep, resolveSource, resolveTarget, edgeWeight, hw, hs, ht]
          rw [← hc]
          exact ih _ (fun x hx => hf x (List.mem_cons_of_mem _ hx))

theorem strCell_ok_iff (r : Row) (c s : String) :
    r.strCell c = .ok s ↔ r.cell c = some (some s) := by
  unfold Row.strCell
  cases h : r.cell c with
  | none => simp
  | some o => cases o <;> simp

theorem mem_placesSet (d : List (String × ℚ × ℚ)) (k : String) (v : ℚ × ℚ)
    (pc : String × ℚ × ℚ) (h : pc ∈ placesSet d k v) :
    pc ∈ d ∨ pc = (k, v) := by
  induction d with
  | nil => simpa [placesSet] using h
  | cons p rest ih =>
      obtain ⟨k0, v0⟩ := p
      rw [placesSet] at h
      by_cases h0 : k0 = k
      · rw [if_pos h0] at h
        rcases List.mem_cons.mp h with rfl | h
        · exact Or.inr (by rw [h0])
        · exact Or.inl (List.mem_cons_of_mem _ h)
      · rw [if_neg h0] at h
        rcases List.mem_cons.mp h with rfl | h
        · exact Or.inl (by simp)
        · rcases ih h with hm | he
          · exact Or.inl (List.mem_cons_of_mem _ hm)
          · exact Or.inr he

theorem placesSet_key_mem (d : List (String × ℚ × ℚ)) (k : String) (v : ℚ × ℚ) :
    ∃ c, (k, c) ∈ placesSet d k v := by
  induction d with
  | nil => exact ⟨v, by simp [placesSet]⟩
  | cons p rest ih =>
      obtain ⟨k0, v0⟩ := p
      rw [placesSet]
      by_cases h0 : k0 = k
      · subst h0
        exact ⟨v, by simp⟩
      · rw [if_neg h0]
        obtain ⟨c, hc⟩ := ih
        exact ⟨c, List.mem_cons_of_mem _ hc⟩

theorem mem_placesSet_of_ne (d : List (String × ℚ × ℚ)) (k : String) (v : ℚ × ℚ)
    (pc : String × ℚ × ℚ) (hm : pc ∈ d) (hne : pc.1 ≠ k) :
    pc ∈ placesSet d k v := by
  induction d with
  | nil => simp at hm
  | cons p rest ih =>
      obtain ⟨k0, v0⟩ := p
      rw [placesSet]
      by_cases h0 : k0 = k
      · subst h0
        rw [if_pos rfl]
        rcases List.mem_cons.mp hm with rfl | hm
        · exact absurd rfl hne
        · exact List.mem_cons_of_mem _ hm
      · rw [if_neg h0]
        rcases List.mem_cons.mp hm with rfl | hm
        · exact List.mem_cons_self _ _
        · exact List.mem_cons_of_mem _ (ih hm)

theorem find?_key_isSome_iff (d : List (String × ℚ × ℚ)) (k : String) :
    ((d.find? (fun p => p.1 = k)).isSome) = true ↔ ∃ c, (k, c) ∈ d := by
  rw [List.find?_isSome]
  constructor
  · rintro ⟨⟨k0, c⟩, hm, hp⟩
    simp only [decide_eq_true_eq] at hp
    subst hp
    exact ⟨c, hm⟩
  · rintro ⟨c, hm⟩
    exact ⟨(k, c), hm, by simp⟩

theorem find?_placesSet_isSome (d : List (String × ℚ × ℚ)) (k k' : String) (v : ℚ × ℚ) :
    ((placesSet d k v).find? (fun p => p.1 = k')).isSome ↔
      k' = k ∨ (d.find? (fun p => p.1 = k')).isSome := by
  rw [find?_key_isSome_iff, find?_key_isSome_iff]
  constructor
  · rintro ⟨c, hm⟩
    rcases mem_placesSet d k v (k', c) hm with hm | he
    · exact Or.inr ⟨c, hm⟩
    · exact Or.inl (by injection he with h1 h2)
  · rintro (rfl | ⟨c, hm⟩)
    · exact placesSet_key_mem d k' v
    · by_cases hk : k' = k
      · subst hk
        exact placesSet_key_mem d k' v
      · exact ⟨c, mem_placesSet_of_ne d k v (k', c) hm hk⟩

theorem dataframeGo_cons (acc : List (String × ℚ × ℚ)) (r : Row) (rest : List Row)
    (m : List (String × ℚ × ℚ)) (h : dataframeGo acc (r :: rest) = .ok m) :
    ∃ p latS lonS lonQ latQ, r.cell "Ort" = some (some p) ∧
      r.cell "Lat" = some (some latS) ∧ r.cell "Len" = some (some lonS) ∧
      pyFloat lonS = some lonQ ∧ pyFloat latS = some latQ ∧
      dataframeGo (placesSet acc p (lonQ, latQ)) rest = .ok m := by
  rw [dataframeGo] at h
  rw [bind_ok_iff] at h
  obtain ⟨p, hp, h⟩ := h
  rw [bind_ok_iff] at h
  obtain ⟨latS, hlat, h⟩ := h
  rw [bind_ok_iff] at h
  obtain ⟨lonS, hlon, h⟩ := h
  rw [bind_ok_iff] at h
  obtain ⟨lonQ, hlonQ, h⟩ := h
  rw [bind_ok_iff] at h
  obtain ⟨latQ, hlatQ, h⟩ := h
  rw [strCell_ok_iff] at hp hlat hlon
  rw [pyFloatE_ok_iff] at hlonQ hlatQ
  exact ⟨p, latS, lonS, lonQ, latQ, hp, hlat, hlon, hlonQ, hlatQ, h⟩

theorem dataframeGo_keys (df : List Row) (acc m : List (String × ℚ × ℚ))
    (h : dataframeGo acc df = .ok m) (p : String)
    (hp : ((acc.find? (fun q => q.1 = p)).isSome) = true ∨
      ∃ r ∈ df, r.cell "Ort" = some (some p)) :
    ((m.find? (fun q => q.1 = p)).isSome) = true := by
  induction df generalizing acc with
  | nil =>
      rw [dataframeGo] at h
      simp only [Except.ok.injEq] at h
      subst h
      rcases hp with hp | ⟨r, hr, -⟩
      · exact hp
      · simp at hr
  | cons r rest ih =>
      obtain ⟨p0, latS, lonS, lonQ, latQ, hOrt, -, -, -, -, h⟩ := dataframeGo_cons acc r rest m h
      refine ih (placesSet acc p0 (lonQ, latQ)) h ?_
      rcases hp with hp | ⟨r', hr', hOrt'⟩
      · exact Or.inl ((find?_placesSet_isSome acc p0 p (lonQ, latQ)).mpr (Or.inr hp))
      · rcases List.mem_cons.mp hr' with rfl | hr'
        · rw [hOrt] at hOrt'
          simp only [Option.some.injEq] at hOrt'
          exact Or.inl ((find?_placesSet_isSome acc p0 p (lonQ, latQ)).mpr
            (Or.inl hOrt'.symm))
        · exact Or.inr ⟨r', hr', hOrt'⟩

theorem dataframeGo_mem (df : List Row) (acc m : List (String × ℚ × ℚ))
    (h : dataframeGo acc df = .ok m) (pc : String × ℚ × ℚ) (hm : pc ∈ m) :
    pc ∈ acc ∨ ∃ r ∈ df, r.cell "Ort" = some (some pc.1) ∧ pc.2 = rowLonLat r := by
  induction df generalizing acc with
  | nil =>
      rw [dataframeGo] at h
      simp only [Except.ok.injEq] at h
      subst h
      exact Or.inl hm
  | cons r rest ih =>
      obtain ⟨p0, latS, lonS, lonQ, latQ, hOrt, hLat, hLen, hlonQ, hlatQ, h⟩ :=
        dataframeGo_cons acc r rest m h
      rcases ih (placesSet acc p0 (lonQ, latQ)) h with hin | ⟨r', hr', hO, hv⟩
      · rcases mem_placesSet acc p0 (lonQ, latQ) pc hin with hin | rfl
        · exact Or.inl hin
        · refine Or.inr ⟨r, List.mem_cons_self _ _, hOrt, ?_⟩
          rw [rowLonLat]
          rw [hLen, hLat]
          simp [strOfCell, hlonQ, hlatQ]
      · exact Or.inr ⟨r', List.mem_cons_of_mem _ hr', hO, hv⟩

theorem mem_get_location_set (df : List Row) (p : String) :
    p ∈ get_location_set df ↔ ∃ r ∈ df, r.cell "Ort" = some (some p) := by
  unfold get_location_set
  rw [List.mem_dedup, List.mem_filterMap]
  constructor
  · rintro ⟨r, hr, hp⟩
    refine ⟨r, hr, ?_⟩
    cases hc : r.cell "Ort" with
    | none => rw [hc] at hp; simp [Option.join] at hp
    | some o =>
        cases o with
        | none => rw [hc] at hp; simp [Option.join] at hp
        | some s =>
            rw [hc] at hp
            simp [Option.join] at hp
            rw [← hp]
  · rintro ⟨r, hr, hp⟩
    exact ⟨r, hr, by rw [hp]; rfl⟩

theorem locMap_covers (df : List Row) (m : List (String × ℚ × ℚ))
    (h : dataframe_to_dict df = .ok m) (p : String) (hp : p ∈ get_location_set df) :
    ((m.find? (fun q => q.1 = p)).isSome) = true := by
  rw [mem_get_location_set] at hp
  exact dataframeGo_keys df [] m h p (Or.inr hp)

theorem valInSet_true (v : Val) (s : List String) (h : valInSet v s = true) :
    ∃ k, v = .vStr k ∧ k ∈ s := by
  cases v with
  | vStr t =>
      refine ⟨t, rfl, ?_⟩
      rw [valInSet] at h
      simpa using h
  | vNum q => simp [valInSet] at h
  | vNull => simp [valInSet] at h
  | vBool b => simp [valInSet] at h

theorem placesFind_known (m : List (String × ℚ × ℚ)) (k : String)
    (h : ((m.find? (fun p => p.1 = k)).isSome) = true) :
    placesFind m (.vStr k) = .ok (placesGetD m (.vStr k)) := by
  rw [Option.isSome_iff_exists] at h
  obtain ⟨q, hq⟩ := h
  rw [placesFind, placesGetD, hq]
  rfl

theorem emitTargets_ok (uniq : List String) (m : List (String × ℚ × ℚ)) (src : Val)
    (srcC : ℚ × ℚ) (ts : List (Val × Val))
    (hm : ∀ k, k ∈ uniq → ((m.find? (fun p => p.1 = k)).isSome) = true) :
    emitTargets uniq m src srcC ts =
      .ok ((ts.filter (fun tw => valInSet tw.1 uniq)).map
        (fun tw => (⟨"LineString", .lineString srcC (placesGetD m tw.1),
          [("source", src), ("target", tw.1), ("weight", tw.2)]⟩ : Feature))) := by
  induction ts with
  | nil => simp [emitTargets]
  | cons tw rest ih =>
      obtain ⟨t, w⟩ := tw
      rw [emitTargets]
      by_cases hq : valInSet t uniq
      · obtain ⟨k, rfl, hk⟩ := valInSet_true t uniq hq
        rw [if_pos hq]
        rw [placesFind_known m k (hm k hk)]
        simp only [ok_bind]
        rw [ih]
        simp only [ok_bind]
        simp [hq]
      · rw [if_neg hq]
        rw [ih]
        simp [hq]

theorem emitConns_ok (uniq : List String) (m : List (String × ℚ × ℚ))
    (conns : List (Val × List (Val × Val)))
    (hm : ∀ k, k ∈ uniq → ((m.find? (fun p => p.1 = k)).isSome) = true) :
    emitConns uniq m conns = .ok (flattenConns uniq m conns) := by
  induction conns with
  | nil => simp [emitConns, flattenConns]
  | cons p rest ih =>
      obtain ⟨s, ts⟩ := p
      rw [emitConns]
      by_cases hq : valInSet s uniq
      · obtain ⟨k, rfl, hk⟩ := valInSet_true s uniq hq
        rw [if_pos hq]
        rw [placesFind_known m k (hm k hk)]
        simp only [ok_bind]
        rw [emitTargets_ok uniq m _ _ ts hm]
        simp only [ok_bind]
        rw [ih]
        simp only [ok_bind]
        simp [flattenConns, connBlock, hq]
      · rw [if_neg hq]
        rw [ih]
        simp [flattenConns, connBlock, hq]

theorem perm_append_rotate {α : Type} (A E R : List α) :
    ((A ++ E) ++ R).Perm ((A ++ R) ++ E) := by
  rw [List.append_assoc, List.append_assoc]
  exact List.Perm.append_left A List.perm_append_comm

theorem connBlock_append (uniq : List String) (m : List (String × ℚ × ℚ)) (s : Val)
    (ts ts' : List (Val × Val)) :
    connBlock uniq m s (ts ++ ts') = connBlock uniq m s ts ++ connBlock uniq m s ts' := by
  by_cases hs : valInSet s uniq <;> simp [connBlock, hs]

theorem connBlock_single (uniq : List String) (m : List (String × ℚ × ℚ)) (s t w : Val) :
    connBlock uniq m s [(t, w)] =
      if valInSet s uniq && valInSet t uniq then
        [(⟨"LineString", .lineString (placesGetD m s) (placesGetD m t),
          [("source", s), ("target", t), ("weight", w)]⟩ : Feature)]
      else [] := by
  by_cases hs : valInSet s uniq <;> by_cases ht : valInSet t uniq <;>
    simp [connBlock, hs, ht]

theorem flattenConns_connInsert (uniq : List String) (m : List (String × ℚ × ℚ))
    (conns : List (Val × List (Val × Val))) (s t w : Val) :
    (flattenConns uniq m (connInsert conns s (t, w))).Perm
      (flattenConns uniq m conns ++ connBlock uniq m s [(t, w)]) := by
  induction conns with
  | nil => simp [flattenConns, connInsert]
  | cons p rest ih =>
      obtain ⟨s', ts'⟩ := p
      rw [connInsert]
      by_cases h0 : s' = s
      · subst h0
        rw [if_pos rfl]
        show (connBlock uniq m s' (ts' ++ [(t, w)]) ++ flattenConns uniq m rest).Perm _
        rw [connBlock_append]
        rw [show flattenConns uniq m ((s', ts') :: rest) =
          connBlock uniq m s' ts' ++ flattenConns uniq m rest from rfl]
        exact perm_append_rotate _ _ _
      · rw [if_neg h0]
        show (connBlock uniq m s' ts' ++ flattenConns uniq m (connInsert rest s (t, w))).Perm _
        refine List.Perm.trans (ih.append_left _) ?_
        rw [show flattenConns uniq m ((s', ts') :: rest) =
          connBlock uniq m s' ts' ++ flattenConns uniq m rest from rfl]
        rw [List.append_assoc]

theorem connBlock_single_filter (uniq : List String) (m : List (String × ℚ × ℚ))
    (b : Bool) (e : EdgeRec) :
    connBlock uniq m (resolveSource b e) [(resolveTarget b e, edgeWeight e)] =
      ([e].filter (qualEdge b uniq)).map (mkEdgeFeature b m) := by
  rw [connBlock_single]
  by_cases hq : qualEdge b uniq e
  · rw [if_pos (by rwa [qualEdge] at hq)]
    simp [List.filter_cons, hq, mkEdgeFeature]
  · rw [if_neg (by rwa [qualEdge] at hq)]
    simp [List.filter_cons, hq]

theorem flatten_foldl_perm (uniq : List String) (m : List (String × ℚ × ℚ))
    (b : Bool) (edges : List EdgeRec) :
    (flattenConns uniq m (edges.foldl (connStep b) [])).Perm
      ((edges.filter (qualEdge b uniq)).map (mkEdgeFeature b m)) := by
  induction edges using List.reverseRecOn with
  | nil => simp [flattenConns]
  | append_singleton es e ih =>
      rw [List.foldl_append, List.foldl_cons, List.foldl_nil]
      rw [connStep]
      refine List.Perm.trans (flattenConns_connInsert uniq m _ _ _ _) ?_
      rw [List.filter_append, List.map_append]
      refine List.Perm.trans (ih.append_right _) ?_
      rw [connBlock_single_filter]

theorem make_line_strings_ok (cfg : Config) (table : List Row) (edges : List EdgeRec)
    (m : List (String × ℚ × ℚ))
    (hfld : ∀ e ∈ edges, edgeFieldsOk cfg.processedFlag e = true)
    (hd : dataframe_to_dict (map_locations cfg table) = .ok m) :
    make_line_strings cfg table edges =
      .ok (flattenConns (get_location_set (map_locations cfg table)) m
        (edges.foldl (connStep cfg.processedFlag) [])) := by
  rw [make_line_strings]
  rw [hd]
  simp only [ok_bind]
  rw [get_connections, connectionsGo_ok_of_fields cfg.processedFlag edges [] hfld]
  simp only [ok_bind]
  exact emitConns_ok _ m _ (fun k hk => locMap_covers _ m hd k hk)

theorem dictGet_dictSet (d : Dict) (k k' : String) (v : Val) :
    dictGet (dictSet d k v) k' = if k' = k then some v else dictGet d k' := by
  induction d with
  | nil =>
      rw [dictSet]
      by_cases h : k' = k
      · subst h
        rw [if_pos rfl, dictGet]
        rw [List.find?_cons_of_pos _ (by simp)]
        rfl
      · rw [if_neg h, dictGet]
        rw [List.find?_cons_of_neg _ (by simpa using fun hh => h hh.symm)]
        simp [dictGet]
  | cons p rest ih =>
      obtain ⟨k0, v0⟩ := p
      rw [dictSet]
      by_cases h0 : k0 = k
      · subst h0
        rw [if_pos rfl]
        by_cases h1 : k0 = k'
        · subst h1
          rw [if_pos rfl, dictGet]
          rw [List.find?_cons_of_pos _ (by simp)]
          rfl
        · rw [if_neg (fun hh => h1 hh.symm), dictGet, dictGet]
          rw [List.find?_cons_of_neg _ (by simpa using h1),
            List.find?_cons_of_neg _ (by simpa using h1)]
      · rw [if_neg h0]
        by_cases h1 : k0 = k'
        · subst h1
          rw [if_neg (fun hh => h0 (by rw [← hh]))]
          rw [dictGet, dictGet]
          rw [List.find?_cons_of_pos _ (by simp), List.find?_cons_of_pos _ (by simp)]
        · rw [dictGet, dictGet]
          rw [List.find?_cons_of_neg _ (by simpa using h1),
            List.find?_cons_of_neg _ (by simpa using h1)]
          exact ih

theorem find?_eq_of_nodup (l : Dict) (k : String) (v : Val)
    (hnd : (l.map Prod.fst).Nodup) (hm : (k, v) ∈ l) :
    l.find? (fun p => p.1 = k) = some (k, v) := by
  induction l with
  | nil => simp at hm
  | cons p rest ih =>
      rw [List.map_cons] at hnd
      obtain ⟨hk, hnd'⟩ := List.nodup_cons.mp hnd
      rcases List.mem_cons.mp hm with rfl | hm
      · exact List.find?_cons_of_pos _ (by simp)
      · have hne : p.1 ≠ k := by
          intro hh
          exact hk (by simpa [hh] using List.mem_map_of_mem Prod.fst hm)
        rw [List.find?_cons_of_neg _ (by simpa using hne)]
        exact ih hnd' hm

theorem dictGet_mem (d : Dict) (k : String) (v : Val) (h : dictGet d k = some v) :
    (k, v) ∈ d := by
  rw [dictGet] at h
  cases hf : d.find? (fun p => p.1 = k) with
  | none => rw [hf] at h; simp at h
  | some p =>
      rw [hf] at h
      have hp : p.1 = k := by simpa using List.find?_some hf
      have hv : p.2 = v := by simpa using h
      have hmem := List.mem_of_find?_eq_some hf
      obtain ⟨p1, p2⟩ := p
      dsimp only at hp hv
      subst hp hv
      exact hmem

theorem dictGet_foldl_set (l : Dict) (d : Dict) (k : String)
    (hnd : (l.map Prod.fst).Nodup) :
    dictGet (l.foldl (fun acc p => dictSet acc p.1 p.2) d) k =
      (match l.find? (fun p => p.1 = k) with
      | some p => some p.2
      | none => dictGet d k) := by
  induction l generalizing d with
  | nil => simp
  | cons p rest ih =>
      rw [List.map_cons] at hnd
      obtain ⟨hk, hnd'⟩ := List.nodup_cons.mp hnd
      rw [List.foldl_cons, ih _ hnd']
      by_cases h : p.1 = k
      · have hrest : rest.find? (fun q => q.1 = k) = none := by
          rw [List.find?_eq_none]
          intro q hq
          simp only [decide_eq_true_eq]
          intro hqk
          exact hk (by simpa [← h, hqk] using List.mem_map_of_mem Prod.fst hq)
        rw [hrest, List.find?_cons_of_pos _ (by simpa using h)]
        rw [dictGet_dictSet, if_pos h.symm]
      · rw [List.find?_cons_of_neg _ (by simpa using h)]
        cases hf : rest.find? (fun q => q.1 = k) with
        | some q => rfl
        | none => rw [dictGet_dictSet, if_neg (fun hh => h hh.symm)]

theorem placesFind_ok_mem (m : List (String × ℚ × ℚ)) (v : Val) (c : ℚ × ℚ)
    (h : placesFind m v = .ok c) : ∃ k, (k, c) ∈ m := by
  cases v with
  | vStr k =>
      rw [placesFind] at h
      cases hf : m.find? (fun p => p.1 = k) with
      | none => rw [hf] at h; simp at h
      | some p =>
          rw [hf] at h
          have hv : p.2 = c := by simpa using h
          have hmem := List.mem_of_find?_eq_some hf
          exact ⟨p.1, by rw [← hv]; simpa using hmem⟩
  | vNum q => simp [placesFind] at h
  | vNull => simp [placesFind] at h
  | vBool b => simp [placesFind] at h

theorem emitTargets_mem (uniq : List String) (m : List (String × ℚ × ℚ)) (src : Val)
    (srcC : ℚ × ℚ) (ts : List (Val × Val)) (fs : List Feature)
    (h : emitTargets uniq m src srcC ts = .ok fs) (f : Feature) (hf : f ∈ fs) :
    ∃ tc, f.geometry = .lineString srcC tc ∧ ∃ k, (k, tc) ∈ m := by
  induction ts generalizing fs with
  | nil =>
      rw [emitTargets] at h
      simp only [Except.ok.injEq] at h
      subst h
      simp at hf
  | cons tw rest ih =>
      obtain ⟨t, w⟩ := tw
      rw [emitTargets] at h
      by_cases hq : valInSet t uniq
      · rw [if_pos hq] at h
        rw [bind_ok_iff] at h
        obtain ⟨tc, htc, h⟩ := h
        rw [bind_ok_iff] at h
        obtain ⟨fs', hfs', h⟩ := h
        simp only [Except.ok.injEq] at h
        subst h
        rcases List.mem_cons.mp hf with rfl | hf
        · exact ⟨tc, rfl, placesFind_ok_mem m t tc htc⟩
        · exact ih fs' hfs' hf
      · rw [if_neg hq] at h
        exact ih fs h hf

theorem emitConns_mem (uniq : List String) (m : List (String × ℚ × ℚ))
    (conns : List (Val × List (Val × Val))) (fs : List Feature)
    (h : emitConns uniq m conns = .ok fs) (f : Feature) (hf : f ∈ fs) :
    ∃ sc tc, f.geometry = .lineString sc tc ∧ (∃ k, (k, sc) ∈ m) ∧ ∃ k, (k, tc) ∈ m := by
  induction conns generalizing fs with
  | nil =>
      rw [emitConns] at h
      simp only [Except.ok.injEq] at h
      subst h
      simp at hf
  | cons p rest ih =>
      obtain ⟨s, ts⟩ := p
      rw [emitConns] at h
      by_cases hq : valInSet s uniq
      · rw [if_pos hq] at h
        rw [bind_ok_iff] at h
        obtain ⟨sc, hsc, h⟩ := h
        rw [bind_ok_iff] at h
        obtain ⟨fs1, hfs1, h⟩ := h
        rw [bind_ok_iff] at h
        obtain ⟨fs2, hfs2, h⟩ := h
        simp only [Except.ok.injEq] at h
        subst h
        rcases List.mem_append.mp hf with hf | hf
        · obtain ⟨tc, hgeo, hkt⟩ := emitTargets_mem uniq m s sc ts fs1 hfs1 f hf
          exact ⟨sc, tc, hgeo, placesFind_ok_mem m s sc hsc, hkt⟩
        · exact ih fs2 hfs2 hf
      · rw [if_neg hq] at h
        exact ih fs h hf

theorem make_line_strings_ok_inv (cfg : Config) (table : List Row) (edges : List EdgeRec)
    (fs : List Feature) (h : make_line_strings cfg table edges = .ok fs) :
    ∃ m conns, dataframe_to_dict (map_locations cfg table) = .ok m ∧
      get_connections edges cfg.processedFlag = .ok conns ∧
      emitConns (get_location_set (map_locations cfg table)) m conns = .ok fs := by
  rw [make_line_strings] at h
  rw [bind_ok_iff] at h
  obtain ⟨m, hm, h⟩ := h
  rw [bind_ok_iff] at h
  obtain ⟨conns, hc, h⟩ := h
  exact ⟨m, conns, hm, hc, h⟩

theorem create_features_edges_ok_inv (cfg : Config) (table : List Row)
    (edges : List EdgeRec) (fc : FeatureCollection)
    (h : create_features_edges cfg table edges = .ok fc) :
    ∃ fs, make_line_strings cfg table edges = .ok fs ∧ fc.features = fs := by
  rw [create_features_edges, bind_ok_iff] at h
  obtain ⟨fs, hfs, h⟩ := h
  refine ⟨fs, hfs, ?_⟩
  simp only [Except.ok.injEq] at h
  subst h
  rw [foldl_add_feature]
  simp

theorem nodeRetained_nodup (cfg : Config) (n : NodeRec)
    (h : (n.data.map Prod.fst).Nodup) : ((nodeRetained cfg n).map Prod.fst).Nodup := by
  rw [nodeRetained]
  by_cases hd : cfg.nodeDropActive
  · rw [if_pos hd]
    exact List.Nodup.sublist ((List.filter_sublist _).map Prod.fst) h
  · simp [hd]

/-! ## The claims -/

/-- Claim C1: For every edge whose resolved source and target names are both
members of KnownPlaces (the location set of the filtered coordinate table),
`create_features_edges` emits exactly one LineString feature with geometry
`[[source_lon, source_lat], [target_lon, target_lat]]` and properties
`{source, target, weight}` from the edge's resolved fields; edges with an
endpoint outside KnownPlaces are silently skipped and raise no error.  The
emitted collection is a permutation of one feature per qualifying edge
(grouping by source reorders but never duplicates or drops), and the call
succeeds whenever the aggregation fields are present and the coordinate
dict was built. -/
theorem create_features_edges_emits_exactly_qualified (cfg : Config)
    (table : List Row) (edges : List EdgeRec) (m : List (String × ℚ × ℚ))
    (hfld : ∀ e ∈ edges, edgeFieldsOk cfg.processedFlag e = true)
    (hd : dataframe_to_dict (map_locations cfg table) = .ok m) :
    ∃ fc, create_features_edges cfg table edges = .ok fc ∧
      fc.features.Perm ((edges.filter
        (qualEdge cfg.processedFlag (get_location_set (map_locations cfg table)))).map
        (mkEdgeFeature cfg.processedFlag m)) := by
  refine ⟨⟨flattenConns (get_location_set (map_locations cfg table)) m
    (edges.foldl (connStep cfg.processedFlag) [])⟩, ?_, ?_⟩
  · rw [create_features_edges, make_line_strings_ok cfg table edges m hfld hd]
    simp only [ok_bind]
    rw [foldl_add_feature]
    simp
  · exact flatten_foldl_perm _ m cfg.processedFlag edges

def c1cfg : Config := ⟨("Lat", "Len"), none, none, none⟩

def c1table : List Row :=
  [⟨[("Ort", some "A"), ("Lat", some "1.5"), ("Len", some "2.5")]⟩,
   ⟨[("Ort", some "B"), ("Lat", some "3"), ("Len", some "4")]⟩]

def c1edges : List EdgeRec :=
  [⟨[("source", .vStr "A"), ("target", .vStr "B"), ("weight", .vNum 3)]⟩,
   ⟨[("source", .vStr "A"), ("target", .vStr "X"), ("weight", .vNum 5)]⟩]

def c1m : List (String × ℚ × ℚ) := [("A", mkRat 5 2, mkRat 3 2), ("B", 4, 3)]

/-- Witness for C1 at a concrete input: one resolvable edge, one edge with
an unknown target. -/
theorem create_features_edges_emits_exactly_qualified_witness :
    ∃ fc, create_features_edges c1cfg c1table c1edges = .ok fc ∧
      fc.features.Perm ((c1edges.filter
        (qualEdge c1cfg.processedFlag (get_location_set (map_locations c1cfg c1table)))).map
        (mkEdgeFeature c1cfg.processedFlag c1m)) :=
  create_features_edges_emits_exactly_qualified c1cfg c1table c1edges c1m
    (by decide) (by decide)

/-- Claim C2: For every node in the loaded node list, `create_features_nodes`
emits exactly one Point feature when the node's lat field is present,
non-empty and not the literal string `"undefined"`, and no feature
otherwise: on success the collection is exactly the qualifying nodes, in
order, each mapped to its Point feature.  The coordinate table and
KnownPlaces do not occur as inputs of the function, so membership plays no
role. -/
theorem create_features_nodes_emits_exactly_qualified (cfg : Config)
    (nodes : List NodeRec) (fc : FeatureCollection)
    (h : create_features_nodes cfg nodes = .ok fc) :
    fc.features = (nodes.filter nodeQualifies).map (specNodeFeature cfg) :=
  create_features_nodes_ok cfg nodes fc h

def c2cfg : Config := ⟨("Lat", "Len"), none, none, none⟩

def c2nodes : List NodeRec :=
  [⟨[("id", .vStr "A"), ("lat", .vStr "1.5"), ("lng", .vStr "2.5")]⟩,
   ⟨[("id", .vStr "B")]⟩,
   ⟨[("id", .vStr "C"), ("lat", .vStr "undefined"), ("lng", .vStr "9")]⟩,
   ⟨[("id", .vStr "D"), ("lat", .vStr ""), ("lng", .vStr "9")]⟩]

def c2fc : FeatureCollection :=
  ⟨[⟨"Point", .point (mkRat 25 10, mkRat 15 10),
    [("name", .vStr "A"), ("connections", .vNull)]⟩]⟩

/-- Witness for C2 at a concrete input: of four nodes only the one with a
present, non-placeholder lat yields a feature. -/
theorem create_features_nodes_emits_exactly_qualified_witness :
    c2fc.features = (c2nodes.filter nodeQualifies).map (specNodeFeature c2cfg) :=
  create_features_nodes_emits_exactly_qualified c2cfg c2nodes c2fc (by decide)

/-- Claim C6: Connection aggregation subscripts every edge's `weight` field
unconditionally: an edge list containing an edge without `weight` makes
`_get_connections` fail, and when every edge has a `weight` (and, in raw
mode, `source` and `target`), the aggregation succeeds. -/
theorem aggregation_requires_weight (edges : List EdgeRec) (b : Bool)
    (hst : ∀ e ∈ edges, b = false → ((dictGet e.data "source").isSome &&
      (dictGet e.data "target").isSome) = true) :
    ((∃ e ∈ edges, dictGet e.data "weight" = none) →
      ∀ r, get_connections edges b ≠ .ok r) ∧
    ((∀ e ∈ edges, (dictGet e.data "weight").isSome) →
      ∃ r, get_connections edges b = .ok r) := by
  constructor
  · rintro ⟨e, he, hw⟩ r hok
    have hsome := connectionsGo_ok_weight b [] edges r hok e he
    rw [hw] at hsome
    simp at hsome
  · intro hw
    refine ⟨edges.foldl (connStep b) [], ?_⟩
    apply connectionsGo_ok_of_fields
    intro e he
    rw [edgeFieldsOk, Bool.and_eq_true]
    refine ⟨?_, hw e he⟩
    cases b with
    | false => simpa using hst e he rfl
    | true => simp

def c6edges : List EdgeRec :=
  [⟨[("source", .vStr "A"), ("target", .vStr "B"), ("weight", .vNum 3)]⟩,
   ⟨[("source", .vStr "A"), ("target", .vStr "C")]⟩]

def c6edges2 : List EdgeRec :=
  [⟨[("source", .vStr "A"), ("target", .vStr "B"), ("weight", .vNum 3)]⟩]

/-- Witness for C6: a list with one weightless edge is rejected, a list
with all weights present aggregates. -/
theorem aggregation_requires_weight_witness :
    (get_connections c6edges false ≠ .ok []) ∧
      ∃ r, get_connections c6edges2 false = .ok r :=
  ⟨(aggregation_requires_weight c6edges false (by decide)).1
      ⟨⟨[("source", .vStr "A"), ("target", .vStr "C")]⟩, by decide, by decide⟩ [],
   (aggregation_requires_weight c6edges2 false (by decide)).2 (by decide)⟩

theorem error_bind {α β : Type} (e : PyErr) (f : α → Except PyErr β) :
    ((Except.error e : Except PyErr α) >>= f) = .error e := rfl

theorem lstripZeros_allZeros (s : String) (h : allZeros s = true) :
    lstripZeros s = "" := by
  rw [allZeros, Bool.and_eq_true] at h
  obtain ⟨-, h⟩ := h
  rw [lstripZeros]
  have hnil : s.data.dropWhile (fun c => c = '0') = [] := by
    rw [List.dropWhile_eq_nil_iff]
    intro x hx
    simpa using List.all_eq_true.mp h x hx
  show (⟨s.data.dropWhile (fun c => c = '0')⟩ : String) = ""
  rw [hnil]

/-- The table after the optional column-dropping stage of `_map_locations`. -/
def appliedDrop (cfg : Config) (table : List Row) : List Row :=
  match cfg.cols_to_drop with
  | some cols => table.map (dropColumns cols)
  | none => table

/-- Claim C7: The coordinate loader returns exactly those rows of the
(optionally column-dropped) table that have no missing value in any
remaining column and whose two coordinate columns differ from the literal
string `"undefined"`; consequently KnownPlaces holds precisely the `"Ort"`
values of surviving rows, and every entry of the place-to-coordinates map
comes from a surviving row — a row with an `"undefined"` coordinate appears
in neither. -/
theorem coordinate_loader_filters (cfg : Config) (table : List Row) :
    (map_locations cfg table = (appliedDrop cfg table).filter (fun r =>
      r.complete && (r.cellNe cfg.lat_long_cols.1 "undefined" &&
        r.cellNe cfg.lat_long_cols.2 "undefined"))) ∧
    (∀ p, p ∈ get_location_set (map_locations cfg table) ↔
      ∃ r ∈ appliedDrop cfg table, (r.complete &&
        (r.cellNe cfg.lat_long_cols.1 "undefined" &&
         r.cellNe cfg.lat_long_cols.2 "undefined")) = true ∧
        r.cell "Ort" = some (some p)) ∧
    (∀ m, dataframe_to_dict (map_locations cfg table) = .ok m →
      ∀ pc ∈ m, ∃ r ∈ map_locations cfg table, r.cell "Ort" = some (some pc.1)) := by
  have h1 : map_locations cfg table = (appliedDrop cfg table).filter (fun r =>
      r.complete && (r.cellNe cfg.lat_long_cols.1 "undefined" &&
        r.cellNe cfg.lat_long_cols.2 "undefined")) := by
    rw [map_locations, appliedDrop]
    cases cfg.cols_to_drop <;> simp only [List.filter_filter] <;>
      exact List.filter_congr (fun a _ => by rw [Bool.and_comm])
  refine ⟨h1, ?_, ?_⟩
  · intro p
    rw [mem_get_location_set, h1]
    constructor
    · rintro ⟨r, hr, hOrt⟩
      rw [List.mem_filter] at hr
      exact ⟨r, hr.1, hr.2, hOrt⟩
    · rintro ⟨r, hr, hcond, hOrt⟩
      exact ⟨r, List.mem_filter.mpr ⟨hr, hcond⟩, hOrt⟩
  · intro m hm pc hpc
    rcases dataframeGo_mem (map_locations cfg table) [] m hm pc hpc with hin | ⟨r, hr, hO, -⟩
    · simp at hin
    · exact ⟨r, hr, hO⟩

def c7cfg : Config := ⟨("Lat", "Len"), some ["Typ"], none, none⟩

def c7table : List Row :=
  [⟨[("Ort", some "A"), ("Lat", some "1"), ("Len", some "2"), ("Typ", some "x")]⟩,
   ⟨[("Ort", some "U"), ("Lat", some "undefined"), ("Len", some "2")]⟩,
   ⟨[("Ort", some "N"), ("Lat", none), ("Len", some "2")]⟩]

/-- Witness for C7: the characterization instantiated at a table with one
good row, one `"undefined"` row and one incomplete row. -/
theorem coordinate_loader_filters_witness :
    (map_locations c7cfg c7table = (appliedDrop c7cfg c7table).filter (fun r =>
      r.complete && (r.cellNe c7cfg.lat_long_cols.1 "undefined" &&
        r.cellNe c7cfg.lat_long_cols.2 "undefined"))) ∧
    (∀ p, p ∈ get_location_set (map_locations c7cfg c7table) ↔
      ∃ r ∈ appliedDrop c7cfg c7table, (r.complete &&
        (r.cellNe c7cfg.lat_long_cols.1 "undefined" &&
         r.cellNe c7cfg.lat_long_cols.2 "undefined")) = true ∧
        r.cell "Ort" = some (some p)) ∧
    (∀ m, dataframe_to_dict (map_locations c7cfg c7table) = .ok m →
      ∀ pc ∈ m, ∃ r ∈ map_locations c7cfg c7table, r.cell "Ort" = some (some pc.1)) :=
  coordinate_loader_filters c7cfg c7table

/-- Claim C8: Leading `'0'` characters are stripped from a node's coordinate
strings before float-parsing: a qualifying node whose lat field is the
string `"007.5"` yields the latitude value `7.5` in its emitted Point
geometry (rather than any parse error). -/
theorem leading_zeros_stripped (cfg : Config) (n : NodeRec) (f : Feature)
    (hlat : dictGet n.data "lat" = some (.vStr "007.5"))
    (h : nodeStep cfg n = .ok (some f)) :
    ∃ lon : ℚ, f.geometry = .point (lon, (7.5 : ℚ)) := by
  obtain ⟨-, rfl⟩ := nodeStep_ok_some cfg n f h
  refine ⟨nodeCoord n "lng", ?_⟩
  rw [specNodeFeature]
  have hstrip : pyFloat (lstripZeros "007.5") = some (mkRat 75 10) := by decide
  have hval : nodeCoord n "lat" = (7.5 : ℚ) := by
    rw [nodeCoord, hlat]
    rw [show strOfVal (some (.vStr "007.5")) = "007.5" from rfl]
    rw [hstrip]
    rw [show (some (mkRat 75 10)).getD 0 = mkRat 75 10 from rfl]
    norm_num [mkRat, Rat.normalize]
  rw [hval]

def c8cfg : Config := ⟨("Lat", "Len"), none, none, none⟩

def c8node : NodeRec :=
  ⟨[("id", .vStr "A"), ("lat", .vStr "007.5"), ("lng", .vStr "020")]⟩

def c8feat : Feature :=
  ⟨"Point", .point (20, mkRat 75 10), [("name", .vStr "A"), ("connections", .vNull)]⟩

/-- Witness for C8: the zero-padded node emits latitude 7.5. -/
theorem leading_zeros_stripped_witness :
    ∃ lon : ℚ, c8feat.geometry = .point (lon, (7.5 : ℚ)) :=
  leading_zeros_stripped c8cfg c8node c8feat (by decide) (by decide)

/-- Claim C9: A node whose lat passes the presence/placeholder check but
whose lat or lng string is entirely `'0'` characters makes the float
conversion fail with a `ValueError` (stripping leaves the empty string),
so `create_features_nodes` on any list containing such a node raises
instead of emitting a Point feature for it. -/
theorem all_zero_coordinate_parse_error (cfg : Config) (n : NodeRec)
    (lats lngs : String)
    (hlat : dictGet n.data "lat" = some (.vStr lats))
    (hlng : dictGet n.data "lng" = some (.vStr lngs))
    (hq : nodeQualifies n = true)
    (hz : allZeros lats = true ∨ allZeros lngs = true) :
    (∃ msg, nodeStep cfg n = .error (.valueError msg)) ∧
      ∀ nodes fc, n ∈ nodes → create_features_nodes cfg nodes ≠ .ok fc := by
  have herr : ∃ msg, nodeStep cfg n = .error (.valueError msg) := by
    rw [nodeStep, if_pos hq]
    rw [show dictItem n.data "lat" = .ok (.vStr lats) from (dictItem_ok_iff _ _ _).mpr hlat]
    simp only [ok_bind]
    rw [show dictItem n.data "lng" = .ok (.vStr lngs) from (dictItem_ok_iff _ _ _).mpr hlng]
    simp only [ok_bind]
    rw [show Val.asStr (.vStr lngs) = .ok lngs from rfl]
    simp only [ok_bind]
    rcases hz with hz | hz
    · cases hpl : pyFloat (lstripZeros lngs) with
      | none =>
          rw [show pyFloatE (lstripZeros lngs) =
            .error (.valueError (lstripZeros lngs)) from by rw [pyFloatE, hpl]]
          rw [error_bind]
          exact ⟨lstripZeros lngs, rfl⟩
      | some q =>
          rw [show pyFloatE (lstripZeros lngs) = .ok q from by rw [pyFloatE, hpl]]
          simp only [ok_bind]
          rw [show Val.asStr (.vStr lats) = .ok lats from rfl]
          simp only [ok_bind]
          rw [show pyFloatE (lstripZeros lats) = .error (.valueError "") from by
            rw [lstripZeros_allZeros lats hz]; decide]
          rw [error_bind]
          exact ⟨"", rfl⟩
    · rw [show pyFloatE (lstripZeros lngs) = .error (.valueError "") from by
        rw [lstripZeros_allZeros lngs hz]; decide]
      rw [error_bind]
      exact ⟨"", rfl⟩
  refine ⟨herr, ?_⟩
  obtain ⟨msg, hmsg⟩ := herr
  intro nodes fc hn hok
  rw [create_features_nodes, bind_ok_iff] at hok
  obtain ⟨fs, hfs, -⟩ := hok
  obtain ⟨r, hr⟩ := featuresNodesGo_ok_mem cfg nodes fs hfs n hn
  rw [hmsg] at hr
  exact absurd hr (by simp)

def c9cfg : Config := ⟨("Lat", "Len"), none, none, none⟩

def c9node : NodeRec := ⟨[("id", .vStr "Z"), ("lat", .vStr "0"), ("lng", .vStr "1")]⟩

/-- Witness for C9: `lat="0"` passes the presence check, then fails the
float conversion. -/
theorem all_zero_coordinate_parse_error_witness :
    ∃ msg, nodeStep c9cfg c9node = .error (.valueError msg) :=
  (all_zero_coordinate_parse_error c9cfg c9node "0" "1" (by decide) (by decide)
    (by decide) (Or.inl (by decide))).1

/-- Claim C10: When `node_props_drop` is set (non-empty) and does not list
`"name"` or `"connections"`, a qualifying node whose data record itself
carries a `"name"` or `"connections"` field has that raw value overwrite
the identifier-derived name and the null connections in the emitted
feature's properties, because the retained fields are merged after those
two entries. -/
theorem retained_props_overwrite_base (cfg : Config) (n : NodeRec) (f : Feature)
    (hnd : (n.data.map Prod.fst).Nodup)
    (hact : cfg.nodeDropActive = true)
    (h : nodeStep cfg n = .ok (some f)) :
    (∀ v, dictGet n.data "name" = some v → "name" ∉ cfg.node_props_drop.getD [] →
      dictGet f.properties "name" = some v) ∧
    (∀ v, dictGet n.data "connections" = some v →
      "connections" ∉ cfg.node_props_drop.getD [] →
      dictGet f.properties "connections" = some v) := by
  obtain ⟨-, rfl⟩ := nodeStep_ok_some cfg n f h
  constructor <;> intro v hv hnin <;>
    rw [specNodeFeature] <;>
    dsimp only <;>
    rw [dictGet_foldl_set _ _ _ (nodeRetained_nodup cfg n hnd)]
  · have hmem : ("name", v) ∈ nodeRetained cfg n := by
      rw [nodeRetained, if_pos hact, List.mem_filter]
      exact ⟨dictGet_mem _ _ _ hv, by simpa using hnin⟩
    rw [find?_eq_of_nodup _ _ _ (nodeRetained_nodup cfg n hnd) hmem]
  · have hmem : ("connections", v) ∈ nodeRetained cfg n := by
      rw [nodeRetained, if_pos hact, List.mem_filter]
      exact ⟨dictGet_mem _ _ _ hv, by simpa using hnin⟩
    rw [find?_eq_of_nodup _ _ _ (nodeRetained_nodup cfg n hnd) hmem]

def c10cfg : Config := ⟨("Lat", "Len"), none, none, some ["lat", "lng"]⟩

def c10node : NodeRec :=
  ⟨[("id", .vStr "A"), ("name", .vStr "raw"), ("connections", .vStr "c"),
    ("lat", .vStr "1"), ("lng", .vStr "2")]⟩

def c10feat : Feature :=
  ⟨"Point", .point (2, 1),
    [("name", .vStr "raw"), ("connections", .vStr "c"), ("id", .vStr "A")]⟩

/-- Witness for C10: the node's own `name` and `connections` values survive
into the feature, overwriting the defaults. -/
theorem retained_props_overwrite_base_witness :
    dictGet c10feat.properties "name" = some (.vStr "raw") ∧
      dictGet c10feat.properties "connections" = some (.vStr "c") :=
  ⟨(retained_props_overwrite_base c10cfg c10node c10feat (by decide) (by decide)
      (by decide)).1 (.vStr "raw") (by decide) (by decide),
   (retained_props_overwrite_base c10cfg c10node c10feat (by decide) (by decide)
      (by decide)).2 (.vStr "c") (by decide) (by decide)⟩

def c4cfg : Config := ⟨("Lat", "Len"), none, none, none⟩

def c4node : NodeRec :=
  ⟨[("id", .vStr "A"), ("lat", .vStr "1"), ("lng", .vStr "2"), ("extra", .vStr "x")]⟩

def c4feat : Feature :=
  ⟨"Point", .point (2, 1), [("name", .vStr "A"), ("connections", .vNull)]⟩

/-- Counterexample to claim C4 as stated: with `node_props_drop` unset, the
claim asserts the node's remaining data fields are all included unfiltered
in the feature's properties; but the property-copying loop only runs when
the option is truthy, so the `"extra"` field of this qualifying node is
absent from the emitted properties. -/
theorem node_props_default_counterexample :
    create_features_nodes c4cfg [c4node] = .ok ⟨[c4feat]⟩ ∧
      dictGet c4feat.properties "extra" = none := by decide

/-- Claim C4 amended: For every qualifying node, the emitted properties
contain a name and a connections entry; when `node_props_drop` is set to a
non-empty list, they additionally contain every remaining data field not in
the deny-list; when the option is unset (or the list empty, both falsy),
no other data fields are included: the properties are exactly the name and
connections entries. -/
theorem node_props_content (cfg : Config) (nodes : List NodeRec)
    (fc : FeatureCollection) (h : create_features_nodes cfg nodes = .ok fc)
    (hnd : ∀ n ∈ nodes, (n.data.map Prod.fst).Nodup) :
    ∀ f ∈ fc.features, ∃ n, n ∈ nodes ∧ nodeQualifies n = true ∧
      (∃ nv, dictGet f.properties "name" = some nv) ∧
      (∃ cv, dictGet f.properties "connections" = some cv) ∧
      (cfg.nodeDropActive = true →
        ∀ k v, dictGet n.data k = some v → k ∉ cfg.node_props_drop.getD [] →
          dictGet f.properties k = some v) ∧
      (cfg.nodeDropActive = false →
        f.properties = [("name", nodeName cfg n), ("connections", Val.vNull)]) := by
  intro f hf
  rw [create_features_nodes_ok cfg nodes fc h, List.mem_map] at hf
  obtain ⟨n, hn, rfl⟩ := hf
  rw [List.mem_filter] at hn
  obtain ⟨hn, hq⟩ := hn
  have hndn := hnd n hn
  have hrnd := nodeRetained_nodup cfg n hndn
  refine ⟨n, hn, hq, ?_, ?_, ?_, ?_⟩
  · rw [specNodeFeature]
    dsimp only
    rw [dictGet_foldl_set _ _ _ hrnd]
    cases hfind : (nodeRetained cfg n).find? (fun p => p.1 = "name") with
    | some p => exact ⟨p.2, rfl⟩
    | none => exact ⟨nodeName cfg n, rfl⟩
  · rw [specNodeFeature]
    dsimp only
    rw [dictGet_foldl_set _ _ _ hrnd]
    cases hfind : (nodeRetained cfg n).find? (fun p => p.1 = "connections") with
    | some p => exact ⟨p.2, rfl⟩
    | none => exact ⟨.vNull, rfl⟩
  · intro hact k v hv hnin
    rw [specNodeFeature]
    dsimp only
    rw [dictGet_foldl_set _ _ _ hrnd]
    have hmem : (k, v) ∈ nodeRetained cfg n := by
      rw [nodeRetained, if_pos hact, List.mem_filter]
      exact ⟨dictGet_mem _ _ _ hv, by simpa using hnin⟩
    rw [find?_eq_of_nodup _ _ _ hrnd hmem]
  · intro hinact
    rw [specNodeFeature]
    dsimp only
    rw [nodeRetained, if_neg (by simp [hinact])]
    rfl

def c4bcfg : Config := ⟨("Lat", "Len"), none, none, none⟩

def c4bnode : NodeRec :=
  ⟨[("id", .vStr "A"), ("lat", .vStr "1"), ("lng", .vStr "2"), ("extra", .vStr "x")]⟩

def c4bfeat : Feature :=
  ⟨"Point", .point (2, 1), [("name", .vStr "A"), ("connections", .vNull)]⟩

/-- Witness for the amended C4 at a concrete input with the deny-list
unset: the feature's properties are exactly name and connections. -/
theorem node_props_content_witness :
    ∃ n, n ∈ [c4bnode] ∧ nodeQualifies n = true ∧
      (∃ nv, dictGet c4bfeat.properties "name" = some nv) ∧
      (∃ cv, dictGet c4bfeat.properties "connections" = some cv) ∧
      (c4bcfg.nodeDropActive = true →
        ∀ k v, dictGet n.data k = some v → k ∉ c4bcfg.node_props_drop.getD [] →
          dictGet c4bfeat.properties k = some v) ∧
      (c4bcfg.nodeDropActive = false →
        c4bfeat.properties = [("name", nodeName c4bcfg n), ("connections", Val.vNull)]) :=
  node_props_content c4bcfg [c4bnode] ⟨[c4bfeat]⟩ (by decide) (by decide)
    c4bfeat (by decide)

def c5cfgF : Config := ⟨("Lat", "Len"), none, none, none⟩

def c5cfgT : Config := ⟨("Lat", "Len"), none, some true, none⟩

def c5table : List Row :=
  [⟨[("Ort", some "A"), ("Lat", some "1"), ("Len", some "2")]⟩,
   ⟨[("Ort", some "B"), ("Lat", some "3"), ("Len", some "4")]⟩,
   ⟨[("Ort", some "C"), ("Lat", some "5"), ("Len", some "6")]⟩,
   ⟨[("Ort", some "D"), ("Lat", some "7"), ("Len", some "8")]⟩]

def c5edges : List EdgeRec :=
  [⟨[("source", .vStr "A"), ("target", .vStr "B"),
     ("source_original", .vStr "C"), ("target_original", .vStr "D"),
     ("weight", .vNum 1)]⟩,
   ⟨[("source", .vStr "E"), ("target", .vStr "F"),
     ("source_original", .vStr "A"), ("target_original", .vStr "B"),
     ("weight", .vNum 2)]⟩]

def c5node : NodeRec :=
  ⟨[("id", .vStr "X"), ("id_original", .vStr "Y"),
    ("lat", .vStr "1"), ("lng", .vStr "2")]⟩

/-- Claim C5: With `processed` set to true, connection aggregation reads each
edge's endpoints from `source_original` / `target_original` and node naming
reads `id_original`; with the flag unset, the direct `source` / `target` /
`id` fields are used — shown on otherwise-identical inputs where flipping
the flag changes which edges are matched against the coordinate table
(first edge: A→B direct vs C→D original; second edge: unknown E→F direct
vs known A→B original) and which name a node feature carries (X vs Y). -/
theorem processed_flag_selects_original_fields :
    create_features_edges c5cfgF c5table c5edges = .ok ⟨[
      ⟨"LineString", .lineString (2, 1) (4, 3),
        [("source", .vStr "A"), ("target", .vStr "B"), ("weight", .vNum 1)]⟩]⟩ ∧
    create_features_edges c5cfgT c5table c5edges = .ok ⟨[
      ⟨"LineString", .lineString (6, 5) (8, 7),
        [("source", .vStr "C"), ("target", .vStr "D"), ("weight", .vNum 1)]⟩,
      ⟨"LineString", .lineString (2, 1) (4, 3),
        [("source", .vStr "A"), ("target", .vStr "B"), ("weight", .vNum 2)]⟩]⟩ ∧
    create_features_nodes c5cfgF [c5node] = .ok ⟨[⟨"Point", .point (2, 1),
      [("name", .vStr "X"), ("connections", .vNull)]⟩]⟩ ∧
    create_features_nodes c5cfgT [c5node] = .ok ⟨[⟨"Point", .point (2, 1),
      [("name", .vStr "Y"), ("connections", .vNull)]⟩]⟩ := by decide

/-- Claim C3: Every coordinate pair in any emitted geometry is ordered
[longitude, latitude]: a Point's position is the pair (lng-field value,
lat-field value) of its node, and each LineString endpoint is the pair
(`"Len"`-column value, `"Lat"`-column value) of a row of the filtered
coordinate table. -/
theorem emitted_coordinates_lon_first (cfg : Config) :
    (∀ nodes fc, create_features_nodes cfg nodes = .ok fc →
      ∀ f ∈ fc.features, ∃ n, n ∈ nodes ∧
        f.geometry = .point (nodeCoord n "lng", nodeCoord n "lat")) ∧
    (∀ table edges fc, create_features_edges cfg table edges = .ok fc →
      ∀ f ∈ fc.features, ∃ r1 r2, r1 ∈ map_locations cfg table ∧
        r2 ∈ map_locations cfg table ∧
        f.geometry = .lineString (rowLonLat r1) (rowLonLat r2)) := by
  constructor
  · intro nodes fc h f hf
    rw [create_features_nodes_ok cfg nodes fc h, List.mem_map] at hf
    obtain ⟨n, hn, rfl⟩ := hf
    exact ⟨n, (List.mem_filter.mp hn).1, rfl⟩
  · intro table edges fc h f hf
    obtain ⟨fs, hfs, hfeat⟩ := create_features_edges_ok_inv cfg table edges fc h
    rw [hfeat] at hf
    obtain ⟨m, conns, hm, hc, he⟩ := make_line_strings_ok_inv cfg table edges fs hfs
    obtain ⟨sc, tc, hgeo, ⟨k1, hk1⟩, ⟨k2, hk2⟩⟩ := emitConns_mem _ m conns fs he f hf
    rcases dataframeGo_mem (map_locations cfg table) [] m hm (k1, sc) hk1 with
      hin | ⟨r1, hr1, -, hv1⟩
    · simp at hin
    rcases dataframeGo_mem (map_locations cfg table) [] m hm (k2, tc) hk2 with
      hin | ⟨r2, hr2, -, hv2⟩
    · simp at hin
    refine ⟨r1, r2, hr1, hr2, ?_⟩
    rw [hgeo]
    dsimp only at hv1 hv2
    rw [hv1, hv2]

def c3cfg : Config := ⟨("Lat", "Len"), none, none, none⟩

def c3node : NodeRec :=
  ⟨[("id", .vStr "A"), ("lat", .vStr "1.5"), ("lng", .vStr "2.5")]⟩

def c3feat : Feature :=
  ⟨"Point", .point (mkRat 25 10, mkRat 15 10),
    [("name", .vStr "A"), ("connections", .vNull)]⟩

def c3table : List Row :=
  [⟨[("Ort", some "A"), ("Lat", some "1"), ("Len", some "2")]⟩]

def c3edge : EdgeRec :=
  ⟨[("source", .vStr "A"), ("target", .vStr "A"), ("weight", .vNum 1)]⟩

def c3efeat : Feature :=
  ⟨"LineString", .lineString (2, 1) (2, 1),
    [("source", .vStr "A"), ("target", .vStr "A"), ("weight", .vNum 1)]⟩

/-- Witness for C3: a concrete Point and a concrete LineString, with the
lng/Len-derived value first in every emitted pair. -/
theorem emitted_coordinates_lon_first_witness :
    (∃ n, n ∈ [c3node] ∧
      c3feat.geometry = .point (nodeCoord n "lng", nodeCoord n "lat")) ∧
    (∃ r1 r2, r1 ∈ map_locations c3cfg c3table ∧ r2 ∈ map_locations c3cfg c3table ∧
      c3efeat.geometry = .lineString (rowLonLat r1) (rowLonLat r2)) :=
  ⟨(emitted_coordinates_lon_first c3cfg).1 [c3node] ⟨[c3feat]⟩ (by decide)
      c3feat (by decide),
   (emitted_coordinates_lon_first c3cfg).2 c3table [c3edge] ⟨[c3efeat]⟩ (by decide)
      c3efeat (by decide)⟩

end Cytogis
